import Mathlib

/-!
# Verification of the Qntx order-matching engine specification

The repository ships the engine's shared domain types
(`src/exchange/packages/types/index.ts`, `src/unnamed/part_004`), its HTTP
and WebSocket collaborators, and extensive design documentation, but the
matching-engine implementation itself (`Engine.ts` / `Orderbook.ts`,
described in `src/unnamed/part_001`) is not among the shipped sources.
Definitions below that embed the engine are therefore modelled from the
spec (each such definition's doc comment says so); definitions for the
WebSocket subscription manager are embedded from the shipped code
(`src/exchange/apps/websocket/Manager.ts`, `src/unnamed/part_010`,
`src/unnamed/part_011`).

Numbers: the spec's Decimal type is "scaled integers"; prices and
quantities are modelled as `Nat`, balances as `Int` so that overdraft is
expressible.  The engine is modelled for a single market (spec §1:
"single-asset-pair"; §5: distinct markets never interact) with its two
assets `base` and `quote`, and `U` user identities (`Fin U`).
-/

namespace Qntx

/-- The two assets of the engine's single trading pair
(`baseAsset`/`quoteAsset` in `OrderbookSnapshot`, `src/unnamed/part_004`). -/
inductive Asset where
  | base
  | quote
deriving DecidableEq, Repr, Fintype

/-- One balance record, per user and asset: mirrors `UserBalance`
(`src/unnamed/part_004`, lines 701-706): `{ available, locked }`. -/
structure Bal where
  available : Int
  locked : Int
deriving DecidableEq, Repr

/-- The balance ledger: one `Bal` per `(userId, asset)` (spec §3 Balance). -/
def Ledger (U : Nat) := Fin U → Asset → Bal

/-- Pointwise update of one `(user, asset)` ledger entry. -/
def updBal {U : Nat} (l : Ledger U) (u₀ : Fin U) (a₀ : Asset) (f : Bal → Bal) :
    Ledger U :=
  fun u a => if u = u₀ ∧ a = a₀ then f (l u a) else l u a

/-- Modelled from the spec: §4.2 `reserve(user, asset, amount)` — moves
`amount` from `available` to `locked`, fails (`InsufficientBalance`) if
`available < amount`, no partial reservation.  (The implementation is
absent from `src/`.) -/
def reserve {U : Nat} (l : Ledger U) (u : Fin U) (a : Asset) (amt : Nat) :
    Option (Ledger U) :=
  if (l u a).available < (amt : Int) then none
  else some (updBal l u a fun b => ⟨b.available - amt, b.locked + amt⟩)

/-- Modelled from the spec: §4.2 `release(user, asset, amount)` — moves
`amount` from `locked` back to `available`, fails (`InvariantViolation`)
if `locked < amount`.  (The implementation is absent from `src/`.) -/
def release {U : Nat} (l : Ledger U) (u : Fin U) (a : Asset) (amt : Nat) :
    Option (Ledger U) :=
  if (l u a).locked < (amt : Int) then none
  else some (updBal l u a fun b => ⟨b.available + amt, b.locked - amt⟩)

/-- Modelled from the spec: one debit leg of §4.2 `settle` — decrements a
locked balance, guarded so that the leg fails rather than overdraft. -/
def debitLocked {U : Nat} (l : Ledger U) (u : Fin U) (a : Asset) (amt : Nat) :
    Option (Ledger U) :=
  if (l u a).locked < (amt : Int) then none
  else some (updBal l u a fun b => ⟨b.available, b.locked - amt⟩)

/-- Modelled from the spec: one credit leg of §4.2 `settle` / §4.2
`credit` — increments an available balance unconditionally. -/
def creditAvailable {U : Nat} (l : Ledger U) (u : Fin U) (a : Asset) (amt : Nat) :
    Ledger U :=
  updBal l u a fun b => ⟨b.available + amt, b.locked⟩

/-- Modelled from the spec: §4.2
`settle(buyer, seller, baseAsset, quoteAsset, price, quantity)` —
atomically moves `price*quantity` of quote from the buyer's locked funds
to the seller's available funds and `quantity` of base from the seller's
locked funds to the buyer's available funds; all four legs succeed or
none do (a `none` result leaves the caller's ledger untouched). -/
def settle {U : Nat} (l : Ledger U) (buyer seller : Fin U) (price qty : Nat) :
    Option (Ledger U) :=
  match debitLocked l buyer .quote (price * qty) with
  | none => none
  | some l₁ =>
    let l₂ := creditAvailable l₁ seller .quote (price * qty)
    match debitLocked l₂ seller .base qty with
    | none => none
    | some l₃ => some (creditAvailable l₃ buyer .base qty)

/-- `Σ (available + locked)` over all users, for one asset (spec §8,
Conservation). -/
def assetTotal {U : Nat} (l : Ledger U) (a : Asset) : Int :=
  ∑ u : Fin U, ((l u a).available + (l u a).locked)

/-- All balance fields are non-negative (spec §3 Balance invariant). -/
def NonNeg {U : Nat} (l : Ledger U) : Prop :=
  ∀ (u : Fin U) (a : Asset), 0 ≤ (l u a).available ∧ 0 ≤ (l u a).locked

theorem sum_ite_add {U : Nat} (g : Fin U → Int) (u₀ : Fin U) (d : Int) :
    (∑ u : Fin U, (if u = u₀ then g u + d else g u)) = (∑ u : Fin U, g u) + d := by
  have h : ∀ u : Fin U, (if u = u₀ then g u + d else g u)
      = g u + (if u = u₀ then d else 0) := by
    intro u; split <;> simp
  rw [Finset.sum_congr rfl (fun u _ => h u), Finset.sum_add_distrib,
    Finset.sum_ite_eq' Finset.univ u₀ (fun _ => d)]
  simp

theorem assetTotal_updBal {U : Nat} (l : Ledger U) (u₀ : Fin U) (a₀ : Asset)
    (f : Bal → Bal) (a : Asset) :
    assetTotal (updBal l u₀ a₀ f) a = assetTotal l a +
      (if a = a₀ then
        ((f (l u₀ a₀)).available + (f (l u₀ a₀)).locked)
          - ((l u₀ a₀).available + (l u₀ a₀).locked)
       else 0) := by
  unfold assetTotal updBal
  by_cases ha : a = a₀
  · subst ha
    have h : ∀ u : Fin U,
        ((if u = u₀ ∧ a = a then f (l u a) else l u a).available
          + (if u = u₀ ∧ a = a then f (l u a) else l u a).locked)
        = (if u = u₀ then
            ((l u a).available + (l u a).locked)
              + (((f (l u₀ a)).available + (f (l u₀ a)).locked)
                - ((l u₀ a).available + (l u₀ a).locked))
           else ((l u a).available + (l u a).locked)) := by
      intro u
      by_cases hu : u = u₀
      · simp [hu]
      · simp [hu]
    rw [Finset.sum_congr rfl (fun u _ => h u),
      sum_ite_add (fun u => (l u a).available + (l u a).locked) u₀]
    simp
  · simp [ha]

theorem assetTotal_reserve {U : Nat} {l l' : Ledger U} {u : Fin U} {a₀ : Asset}
    {amt : Nat} (h : reserve l u a₀ amt = some l') (a : Asset) :
    assetTotal l' a = assetTotal l a := by
  unfold reserve at h
  split at h
  · exact absurd h (by simp)
  · cases h
    rw [assetTotal_updBal]
    split <;> simp

theorem assetTotal_release {U : Nat} {l l' : Ledger U} {u : Fin U} {a₀ : Asset}
    {amt : Nat} (h : release l u a₀ amt = some l') (a : Asset) :
    assetTotal l' a = assetTotal l a := by
  unfold release at h
  split at h
  · exact absurd h (by simp)
  · cases h
    rw [assetTotal_updBal]
    split <;> simp

theorem assetTotal_debitLocked {U : Nat} {l l' : Ledger U} {u : Fin U}
    {a₀ : Asset} {amt : Nat} (h : debitLocked l u a₀ amt = some l') (a : Asset) :
    assetTotal l' a = assetTotal l a + (if a = a₀ then -(amt : Int) else 0) := by
  unfold debitLocked at h
  split at h
  · exact absurd h (by simp)
  · cases h
    rw [assetTotal_updBal]
    split <;> simp

theorem assetTotal_creditAvailable {U : Nat} (l : Ledger U) (u : Fin U)
    (a₀ : Asset) (amt : Nat) (a : Asset) :
    assetTotal (creditAvailable l u a₀ amt) a
      = assetTotal l a + (if a = a₀ then (amt : Int) else 0) := by
  unfold creditAvailable
  rw [assetTotal_updBal]
  split <;> simp

theorem assetTotal_settle {U : Nat} {l l' : Ledger U} {buyer seller : Fin U}
    {price qty : Nat} (h : settle l buyer seller price qty = some l')
    (a : Asset) : assetTotal l' a = assetTotal l a := by
  unfold settle at h
  split at h
  · exact absurd h (by simp)
  · rename_i l₁ h₁
    simp only at h
    split at h
    · exact absurd h (by simp)
    · rename_i l₃ h₃
      cases h
      rw [assetTotal_creditAvailable, assetTotal_debitLocked h₃,
        assetTotal_creditAvailable, assetTotal_debitLocked h₁]
      cases a <;> simp

theorem nonNeg_updBal {U : Nat} {l : Ledger U} (hl : NonNeg l) (u₀ : Fin U)
    (a₀ : Asset) (f : Bal → Bal)
    (hf : 0 ≤ (f (l u₀ a₀)).available ∧ 0 ≤ (f (l u₀ a₀)).locked) :
    NonNeg (updBal l u₀ a₀ f) := by
  intro u a
  unfold updBal
  split
  · rename_i hc
    rcases hc with ⟨hu, ha⟩
    subst hu; subst ha
    exact hf
  · exact hl u a

theorem nonNeg_reserve {U : Nat} {l l' : Ledger U} {u : Fin U} {a₀ : Asset}
    {amt : Nat} (hl : NonNeg l) (h : reserve l u a₀ amt = some l') :
    NonNeg l' := by
  unfold reserve at h
  split at h
  · exact absurd h (by simp)
  · rename_i hge
    cases h
    refine nonNeg_updBal hl u a₀ _ ⟨?_, ?_⟩
    · simpa using le_of_not_lt hge
    · have := (hl u a₀).2
      positivity

theorem nonNeg_release {U : Nat} {l l' : Ledger U} {u : Fin U} {a₀ : Asset}
    {amt : Nat} (hl : NonNeg l) (h : release l u a₀ amt = some l') :
    NonNeg l' := by
  unfold release at h
  split at h
  · exact absurd h (by simp)
  · rename_i hge
    cases h
    refine nonNeg_updBal hl u a₀ _ ⟨?_, ?_⟩
    · have := (hl u a₀).1
      positivity
    · simpa using le_of_not_lt hge

theorem nonNeg_debitLocked {U : Nat} {l l' : Ledger U} {u : Fin U} {a₀ : Asset}
    {amt : Nat} (hl : NonNeg l) (h : debitLocked l u a₀ amt = some l') :
    NonNeg l' := by
  unfold debitLocked at h
  split at h
  · exact absurd h (by simp)
  · rename_i hge
    cases h
    refine nonNeg_updBal hl u a₀ _ ⟨(hl u a₀).1, ?_⟩
    simpa using le_of_not_lt hge

theorem nonNeg_creditAvailable {U : Nat} {l : Ledger U} (hl : NonNeg l)
    (u : Fin U) (a₀ : Asset) (amt : Nat) :
    NonNeg (creditAvailable l u a₀ amt) := by
  refine nonNeg_updBal hl u a₀ _ ⟨?_, (hl u a₀).2⟩
  have := (hl u a₀).1
  positivity

theorem nonNeg_settle {U : Nat} {l l' : Ledger U} {buyer seller : Fin U}
    {price qty : Nat} (hl : NonNeg l)
    (h : settle l buyer seller price qty = some l') : NonNeg l' := by
  unfold settle at h
  split at h
  · exact absurd h (by simp)
  · rename_i l₁ h₁
    simp only at h
    split at h
    · exact absurd h (by simp)
    · rename_i l₃ h₃
      cases h
      exact nonNeg_creditAvailable
        (nonNeg_debitLocked (nonNeg_creditAvailable (nonNeg_debitLocked hl h₁) _ _ _) h₃) _ _ _

/-- Order side: `OrderSide = 'buy' | 'sell'`
(`src/exchange/packages/types/index.ts`, line 4). -/
inductive Side where
  | buy
  | sell
deriving DecidableEq, Repr

/-- Order kind: `OrderType = 'limit' | 'market'`
(`src/exchange/packages/types/index.ts`, line 5). -/
inductive Kind where
  | limit
  | market
deriving DecidableEq, Repr

/-- Order status: `OrderStatus = 'open' | 'filled' | 'cancelled' |
'partially_filled'` (`src/exchange/packages/types/index.ts`, line 6);
`'open'` is rendered `opened` because `open` is a Lean keyword. -/
inductive OrderStatus where
  | opened
  | partiallyFilled
  | filled
  | cancelled
deriving DecidableEq, Repr

/-- One order (spec §3 Order; fields follow `BaseOrder`/`LimitOrder` in
`src/exchange/packages/types/index.ts`).  `createdAt` is the logical
sequence number (spec §3: a monotonic counter, not wall-clock). -/
structure Order (U : Nat) where
  orderId : Nat
  userId : Fin U
  side : Side
  kind : Kind
  price : Nat
  quantity : Nat
  filled : Nat
  createdAt : Nat
deriving DecidableEq, Repr

/-- Outstanding quantity of an order (`remainingQuantity` in
`src/exchange/packages/types/index.ts`). -/
def remaining {U : Nat} (o : Order U) : Nat := o.quantity - o.filled

/-- One match event (spec §3 Fill; source `Fill`/`Trade` in
`src/exchange/packages/types/index.ts`). -/
structure Fill (U : Nat) where
  tradeId : Nat
  price : Nat
  quantity : Nat
  makerOrderId : Nat
  takerOrderId : Nat
  makerUserId : Fin U
  takerUserId : Fin U
deriving DecidableEq, Repr

/-- Modelled from the spec: §4.3 marketability — a Limit Buy crosses a
resting ask iff `ask.price ≤ incoming.price`, a Limit Sell crosses a
resting bid iff `bid.price ≥ incoming.price`, and a Market order is
marketable against any resting order. -/
def marketable {U : Nat} (inc best : Order U) : Bool :=
  match inc.kind with
  | .market => true
  | .limit =>
    match inc.side with
    | .buy => decide (best.price ≤ inc.price)
    | .sell => decide (inc.price ≤ best.price)

/-- Result of the matching loop: the updated taker, the surviving
opposite-side book, the ledger after per-fill settlement, the emitted
fills, the next trade id, and whether a settlement leg failed
(`InvariantViolation`, spec §7). -/
structure MatchRes (U : Nat) where
  taker : Order U
  book : List (Order U)
  ledger : Ledger U
  fills : List (Fill U)
  tid : Nat
  halted : Bool

/-- Modelled from the spec: §4.3 matching algorithm.  Scans the opposite
side front-to-back while the incoming order has remaining quantity and
the best opposite order is marketable; each step matches
`min(incoming.remaining, best.remaining)` at the *resting* order's
price, settles that leg immediately, and removes the resting order when
fully filled.  (The implementation is absent from `src/`.) -/
def matchLoop {U : Nat} (inc : Order U) (opp : List (Order U)) (l : Ledger U)
    (tid : Nat) : MatchRes U :=
  match opp with
  | [] => ⟨inc, [], l, [], tid, false⟩
  | best :: rest =>
    if remaining inc = 0 ∨ marketable inc best = false then
      ⟨inc, best :: rest, l, [], tid, false⟩
    else
      let q := min (remaining inc) (remaining best)
      let buyer := if inc.side = Side.buy then inc.userId else best.userId
      let seller := if inc.side = Side.buy then best.userId else inc.userId
      match settle l buyer seller best.price q with
      | none => ⟨inc, best :: rest, l, [], tid, true⟩
      | some l₁ =>
        let inc₁ := { inc with filled := inc.filled + q }
        let best₁ := { best with filled := best.filled + q }
        let f : Fill U :=
          ⟨tid, best.price, q, best.orderId, inc.orderId, best.userId, inc.userId⟩
        if remaining best₁ = 0 then
          let r := matchLoop inc₁ rest l₁ (tid + 1)
          ⟨r.taker, r.book, r.ledger, f :: r.fills, r.tid, r.halted⟩
        else
          ⟨inc₁, best₁ :: rest, l₁, [f], tid + 1, false⟩

/-- Modelled from the spec: insertion into `bids`, which is sorted by
`(price descending, createdAt ascending)` (spec §3 Order Book); a new
order goes after all entries with price ≥ its own. -/
def insertBid {U : Nat} (o : Order U) : List (Order U) → List (Order U)
  | [] => [o]
  | b :: t => if b.price < o.price then o :: b :: t else b :: insertBid o t

/-- Modelled from the spec: insertion into `asks`, which is sorted by
`(price ascending, createdAt ascending)` (spec §3 Order Book). -/
def insertAsk {U : Nat} (o : Order U) : List (Order U) → List (Order U)
  | [] => [o]
  | b :: t => if o.price < b.price then o :: b :: t else b :: insertAsk o t

/-- The engine's full mutable state for its market: the two book sides,
the balance ledger, the last-applied sequence number, and the last trade
id (spec §3 Engine Snapshot; `OrderbookSnapshot.lastTradeId` in
`src/unnamed/part_004`). -/
structure EngineState (U : Nat) where
  bids : List (Order U)
  asks : List (Order U)
  balances : Ledger U
  seq : Nat
  lastTradeId : Nat

/-- Modelled from the spec: the engine-configured worst-case price bound
used to size a Market Buy reservation (spec §4.4); the concrete value
follows `MAX_ORDER_VALUE = '1000000'` in
`src/exchange/packages/types/index.ts`. -/
def worstCaseBound : Nat := 1000000

/-- Modelled from the spec: §4.4 — the asset and amount a new order must
reserve: `price*quantity` of quote for a Limit Buy, a worst-case bound
for a Market Buy, and `quantity` of base for a Sell. -/
def reservationOf (side : Side) (kind : Kind) (price qty : Nat) : Asset × Nat :=
  match side with
  | .sell => (Asset.base, qty)
  | .buy =>
    match kind with
    | .limit => (Asset.quote, price * qty)
    | .market => (Asset.quote, worstCaseBound * qty)

/-- Error taxonomy of spec §7. -/
inductive EngineError where
  | insufficientBalance
  | orderNotFound
  | invalidOrder
  | invariantViolation
deriving DecidableEq, Repr

/-- Successful `createOrder` payload (spec §4.4; `CreateOrderResponse`
in `src/exchange/packages/types/index.ts`). -/
structure CreateOk (U : Nat) where
  orderId : Nat
  status : OrderStatus
  executedQty : Nat
  fills : List (Fill U)
deriving DecidableEq, Repr

/-- Engine responses (spec §6 outbound response message). -/
inductive EngineResp (U : Nat) where
  | created (ok : CreateOk U)
  | cancelled (releasedQty : Nat)
  | credited (newAvailable : Int)
  | err (e : EngineError)
deriving DecidableEq, Repr

/-- The quantity of the reserved asset consumed by a list of fills:
quote cost `Σ price*quantity` for a Buy taker, base `Σ quantity` for a
Sell taker. -/
def consumedOf {U : Nat} (side : Side) (fills : List (Fill U)) : Nat :=
  match side with
  | .buy => (fills.map (fun f => f.price * f.quantity)).sum
  | .sell => (fills.map (fun f => f.quantity)).sum

/-- Modelled from the spec: §3 — order status derived from
`filledQuantity` vs `quantity`, plus the §4.3 rule that a Market
remainder is discarded as Cancelled. -/
def statusOf {U : Nat} (kind : Kind) (taker : Order U) : OrderStatus :=
  if remaining taker = 0 then .filled
  else
    match kind with
    | .market => .cancelled
    | .limit => if 0 < taker.filled then .partiallyFilled else .opened

/-- Writes the post-match opposite side, ledger and counters into the
engine state (the taker's own side is untouched here). -/
def applyBook {U : Nat} (st : EngineState U) (side : Side)
    (opp : List (Order U)) (sq tid : Nat) (l : Ledger U) : EngineState U :=
  match side with
  | .buy => { st with asks := opp, balances := l, seq := sq, lastTradeId := tid }
  | .sell => { st with bids := opp, balances := l, seq := sq, lastTradeId := tid }

/-- Modelled from the spec: §4.4 — after matching, a Limit remainder is
inserted into its own side with a fresh `createdAt` sequence number
(keeping `price*remaining` resp. `remaining` locked), a Market remainder
is discarded, and any unconsumed portion of the original reservation is
released.  A failing release is the unreachable `InvariantViolation`
class (spec §7): the state as settled so far is kept and the error is
surfaced. -/
def finalizeCreate {U : Nat} (st : EngineState U) (u : Fin U) (side : Side)
    (kind : Kind) (price : Nat) (asset : Asset) (amt : Nat) (r : MatchRes U) :
    EngineState U × EngineResp U :=
  if r.halted then
    (applyBook st side r.book (st.seq + 1) r.tid r.ledger, .err .invariantViolation)
  else
    let rem := remaining r.taker
    if kind = Kind.limit ∧ 0 < rem then
      let keep := match side with | .buy => price * rem | .sell => rem
      match release r.ledger u asset (amt - consumedOf side r.fills - keep) with
      | none =>
        (applyBook st side r.book (st.seq + 1) r.tid r.ledger, .err .invariantViolation)
      | some l₂ =>
        let ro := { r.taker with createdAt := st.seq + 2 }
        let st₁ := applyBook st side r.book (st.seq + 2) r.tid l₂
        let st₂ := match side with
          | .buy => { st₁ with bids := insertBid ro st₁.bids }
          | .sell => { st₁ with asks := insertAsk ro st₁.asks }
        (st₂, .created ⟨r.taker.orderId, statusOf kind r.taker, r.taker.filled, r.fills⟩)
    else
      match release r.ledger u asset (amt - consumedOf side r.fills) with
      | none =>
        (applyBook st side r.book (st.seq + 1) r.tid r.ledger, .err .invariantViolation)
      | some l₂ =>
        (applyBook st side r.book (st.seq + 1) r.tid l₂,
          .created ⟨r.taker.orderId, statusOf kind r.taker, r.taker.filled, r.fills⟩)

/-- The opposite-side collection an incoming order is matched against
(spec §4.3 step 1). -/
def oppositeOf {U : Nat} (st : EngineState U) (side : Side) : List (Order U) :=
  match side with
  | .buy => st.asks
  | .sell => st.bids

/-- Modelled from the spec: §4.4 `createOrder` — validates
`quantity > 0` and `price > 0` for Limit orders, reserves the required
amount (failing with `InsufficientBalance` without touching the book),
runs the §4.3 matching loop against the opposite side, and disposes of
the remainder via `finalizeCreate`.  (The implementation is absent from
`src/`.) -/
def createOrder {U : Nat} (st : EngineState U) (u : Fin U) (side : Side)
    (kind : Kind) (price qty : Nat) : EngineState U × EngineResp U :=
  if 0 < qty ∧ (kind = Kind.limit → 0 < price) then
    let pair := reservationOf side kind price qty
    match reserve st.balances u pair.1 pair.2 with
    | none => (st, .err .insufficientBalance)
    | some l₁ =>
      let o : Order U := ⟨st.seq + 1, u, side, kind, price, qty, 0, st.seq + 1⟩
      finalizeCreate st u side kind price pair.1 pair.2
        (matchLoop o (oppositeOf st side) l₁ (st.lastTradeId + 1))
  else (st, .err .invalidOrder)

/-- Modelled from the spec: §4.4 `cancelOrder` — removes the order from
the book if resting and releases the reservation backing its remainder
(`price*remaining` quote for a Buy, `remaining` base for a Sell); fails
with `OrderNotFound`, leaving the state untouched, when the order is not
resting.  (The implementation is absent from `src/`.) -/
def cancelOrder {U : Nat} (st : EngineState U) (oid : Nat) :
    EngineState U × EngineResp U :=
  match st.bids.find? (fun o => o.orderId == oid) with
  | some o =>
    match release st.balances o.userId Asset.quote (o.price * remaining o) with
    | none => (st, .err .invariantViolation)
    | some l =>
      let bids₁ := st.bids.filter (fun b => b.orderId != oid)
      ({ st with bids := bids₁, balances := l, seq := st.seq + 1 },
        .cancelled (remaining o))
  | none =>
    match st.asks.find? (fun o => o.orderId == oid) with
    | some o =>
      match release st.balances o.userId Asset.base (remaining o) with
      | none => (st, .err .invariantViolation)
      | some l =>
        let asks₁ := st.asks.filter (fun b => b.orderId != oid)
        ({ st with asks := asks₁, balances := l, seq := st.seq + 1 },
          .cancelled (remaining o))
    | none => (st, .err .orderNotFound)

/-- Modelled from the spec: §4.4 `creditFunds` / §4.2 `credit` —
increases `available` unconditionally; `amount` must be `> 0`.  (The
implementation is absent from `src/`.) -/
def creditFunds {U : Nat} (st : EngineState U) (u : Fin U) (a : Asset)
    (amt : Nat) : EngineState U × EngineResp U :=
  if 0 < amt then
    let l := creditAvailable st.balances u a amt
    ({ st with balances := l, seq := st.seq + 1 }, .credited (l u a).available)
  else (st, .err .invalidOrder)

/-- The engine's mutating operations (spec §5: processed strictly one at
a time, in arrival order). -/
inductive EngineOp (U : Nat) where
  | create (u : Fin U) (side : Side) (kind : Kind) (price qty : Nat)
  | cancel (orderId : Nat)
  | credit (u : Fin U) (asset : Asset) (amount : Nat)

/-- Modelled from the spec: the engine's single intake point (spec §2,
§4.4) — dispatches one queued operation. -/
def step {U : Nat} (st : EngineState U) : EngineOp U → EngineState U × EngineResp U
  | .create u side kind price qty => createOrder st u side kind price qty
  | .cancel oid => cancelOrder st oid
  | .credit u a amt => creditFunds st u a amt

/-- Runs a sequence of operations, keeping only the final state. -/
def run {U : Nat} (st : EngineState U) : List (EngineOp U) → EngineState U
  | [] => st
  | op :: ops => run (step st op).1 ops

/-- Runs a sequence of operations, returning the final state and the
response to every operation in order. -/
def runTrace {U : Nat} (st : EngineState U) :
    List (EngineOp U) → EngineState U × List (EngineResp U)
  | [] => (st, [])
  | op :: ops =>
    let p := step st op
    let q := runTrace p.1 ops
    (q.1, p.2 :: q.2)

/-- The amount an operation credits to one asset's total: non-zero only
for a (valid) `creditFunds` (spec §8 Conservation). -/
def creditDelta {U : Nat} (a : Asset) : EngineOp U → Int
  | .credit _ a₀ amt => if a₀ = a ∧ 0 < amt then (amt : Int) else 0
  | _ => 0

theorem assetTotal_matchLoop {U : Nat} (inc : Order U) (opp : List (Order U))
    (l : Ledger U) (tid : Nat) (a : Asset) :
    assetTotal (matchLoop inc opp l tid).ledger a = assetTotal l a := by
  induction opp generalizing inc l tid with
  | nil => rfl
  | cons best rest ih =>
    unfold matchLoop
    split
    · rfl
    · simp only
      split
      · rfl
      · rename_i l₁ hsettle
        have hs := assetTotal_settle hsettle a
        split
        · simp only
          rw [ih]
          exact hs
        · exact hs

theorem applyBook_balances {U : Nat} (st : EngineState U) (side : Side)
    (opp : List (Order U)) (sq tid : Nat) (l : Ledger U) :
    (applyBook st side opp sq tid l).balances = l := by
  cases side <;> rfl

theorem assetTotal_finalizeCreate {U : Nat} (st : EngineState U) (u : Fin U)
    (side : Side) (kind : Kind) (price : Nat) (asset : Asset) (amt : Nat)
    (r : MatchRes U) (a : Asset) :
    assetTotal ((finalizeCreate st u side kind price asset amt r).1.balances) a
      = assetTotal r.ledger a := by
  unfold finalizeCreate
  split
  · simp [applyBook_balances]
  · simp only
    split
    · split
      · simp [applyBook_balances]
      · rename_i l₂ hrel
        cases side <;> simp [applyBook_balances, assetTotal_release hrel]
    · split
      · simp [applyBook_balances]
      · rename_i l₂ hrel
        simp [applyBook_balances, assetTotal_release hrel]

theorem assetTotal_createOrder {U : Nat} (st : EngineState U) (u : Fin U)
    (side : Side) (kind : Kind) (price qty : Nat) (a : Asset) :
    assetTotal ((createOrder st u side kind price qty).1.balances) a
      = assetTotal st.balances a := by
  unfold createOrder
  split
  · simp only
    split
    · rfl
    · rename_i l₁ hres
      rw [assetTotal_finalizeCreate, assetTotal_matchLoop,
        assetTotal_reserve hres]
  · rfl

theorem assetTotal_cancelOrder {U : Nat} (st : EngineState U) (oid : Nat)
    (a : Asset) :
    assetTotal ((cancelOrder st oid).1.balances) a
      = assetTotal st.balances a := by
  unfold cancelOrder
  split
  · rename_i o _
    split
    · rfl
    · rename_i l hrel
      simpa using assetTotal_release hrel a
  · split
    · rename_i o _
      split
      · rfl
      · rename_i l hrel
        simpa using assetTotal_release hrel a
    · rfl

theorem assetTotal_step {U : Nat} (st : EngineState U) (op : EngineOp U)
    (a : Asset) :
    assetTotal ((step st op).1.balances) a
      = assetTotal st.balances a + creditDelta a op := by
  cases op with
  | create u side kind price qty =>
    simp [step, creditDelta, assetTotal_createOrder]
  | cancel oid =>
    simp [step, creditDelta, assetTotal_cancelOrder]
  | credit u a₀ amt =>
    simp only [step, creditFunds, creditDelta]
    split
    · rename_i hpos
      by_cases ha : a₀ = a
      · subst ha
        simp [hpos, assetTotal_creditAvailable]
      · have ha' : ¬a = a₀ := fun h => ha h.symm
        simp [ha, ha', assetTotal_creditAvailable]
    · rename_i hpos
      simp [hpos]

theorem nonNeg_matchLoop {U : Nat} (inc : Order U) (opp : List (Order U))
    {l : Ledger U} (tid : Nat) (hl : NonNeg l) :
    NonNeg (matchLoop inc opp l tid).ledger := by
  induction opp generalizing inc l tid with
  | nil => exact hl
  | cons best rest ih =>
    unfold matchLoop
    split
    · exact hl
    · simp only
      split
      · exact hl
      · rename_i l₁ hsettle
        have hs := nonNeg_settle hl hsettle
        split
        · simp only
          exact ih _ _ hs
        · exact hs

theorem nonNeg_finalizeCreate {U : Nat} (st : EngineState U) (u : Fin U)
    (side : Side) (kind : Kind) (price : Nat) (asset : Asset) (amt : Nat)
    {r : MatchRes U} (hr : NonNeg r.ledger) :
    NonNeg ((finalizeCreate st u side kind price asset amt r).1.balances) := by
  unfold finalizeCreate
  split
  · simpa [applyBook_balances] using hr
  · simp only
    split
    · split
      · simpa [applyBook_balances] using hr
      · rename_i l₂ hrel
        cases side <;>
          simpa [applyBook_balances] using nonNeg_release hr hrel
    · split
      · simpa [applyBook_balances] using hr
      · rename_i l₂ hrel
        simpa [applyBook_balances] using nonNeg_release hr hrel

theorem nonNeg_createOrder {U : Nat} {st : EngineState U} (u : Fin U)
    (side : Side) (kind : Kind) (price qty : Nat) (hl : NonNeg st.balances) :
    NonNeg ((createOrder st u side kind price qty).1.balances) := by
  unfold createOrder
  split
  · simp only
    split
    · exact hl
    · rename_i l₁ hres
      exact nonNeg_finalizeCreate _ _ _ _ _ _ _
        (nonNeg_matchLoop _ _ _ (nonNeg_reserve hl hres))
  · exact hl

theorem nonNeg_cancelOrder {U : Nat} {st : EngineState U} (oid : Nat)
    (hl : NonNeg st.balances) :
    NonNeg ((cancelOrder st oid).1.balances) := by
  unfold cancelOrder
  split
  · rename_i o _
    split
    · exact hl
    · rename_i l hrel
      simpa using nonNeg_release hl hrel
  · split
    · rename_i o _
      split
      · exact hl
      · rename_i l hrel
        simpa using nonNeg_release hl hrel
    · exact hl

theorem nonNeg_step {U : Nat} {st : EngineState U} (op : EngineOp U)
    (hl : NonNeg st.balances) : NonNeg ((step st op).1.balances) := by
  cases op with
  | create u side kind price qty => exact nonNeg_createOrder u side kind price qty hl
  | cancel oid => exact nonNeg_cancelOrder oid hl
  | credit u a₀ amt =>
    simp only [step, creditFunds]
    split
    · exact nonNeg_creditAvailable hl u a₀ amt
    · exact hl

theorem nonNeg_run {U : Nat} {st : EngineState U} (ops : List (EngineOp U))
    (hl : NonNeg st.balances) : NonNeg ((run st ops).balances) := by
  induction ops generalizing st with
  | nil => exact hl
  | cons op ops ih => exact ih (nonNeg_step op hl)

instance {U : Nat} (l : Ledger U) : Decidable (NonNeg l) := by
  unfold NonNeg; infer_instance

/-- C1: For any sequence of engine operations (createOrder, cancelOrder,
creditFunds, and the matching/settlement they trigger), the sum of
`available + locked` per asset across all users changes only via
`creditFunds`, and when it changes it changes by exactly the credited
amount; matching, trading, and cancelling never create or destroy
value. -/
theorem claim_C1_conservation {U : Nat} (st : EngineState U)
    (ops : List (EngineOp U)) (a : Asset) :
    assetTotal (run st ops).balances a
      = assetTotal st.balances a + ((ops.map (creditDelta a)).sum) := by
  induction ops generalizing st with
  | nil => simp [run]
  | cons op ops ih =>
    simp only [run, List.map_cons, List.sum_cons]
    rw [ih, assetTotal_step]
    ring

/-- C2: After every engine operation (hence after every sequence of
operations from a non-negative ledger), every user's balance record for
every asset satisfies `available ≥ 0` and `locked ≥ 0`; no operation can
overdraft either field. -/
theorem claim_C2_no_overdraft {U : Nat} {st : EngineState U}
    (ops : List (EngineOp U)) (hl : NonNeg st.balances) :
    NonNeg ((run st ops).balances) :=
  nonNeg_run ops hl

/-- Concrete engine state used by witnesses: two users, each with
1000000 available in both assets, empty book. -/
def wState : EngineState 2 :=
  ⟨[], [], fun _ _ => ⟨1000000, 0⟩, 0, 0⟩

/-- Concrete operation sequence used by the C2 witness: a credit, a
resting sell, a partially matching buy, and a cancel. -/
def wOps : List (EngineOp 2) :=
  [.credit 0 Asset.quote 50,
   .create 0 Side.sell Kind.limit 10 5,
   .create 1 Side.buy Kind.limit 10 3,
   .cancel 2]

theorem claim_C2_witness :
    NonNeg wState.balances ∧ NonNeg ((run wState wOps).balances) :=
  ⟨by decide, claim_C2_no_overdraft wOps (by decide)⟩

/-- C5: A valid order request whose required reservation exceeds the
user's available balance in the asset to be reserved fails with
`InsufficientBalance`; no partial reservation occurs, the order book is
not mutated, and all balances are unchanged (the returned state is the
input state). -/
theorem claim_C5_insufficient_balance {U : Nat} (st : EngineState U)
    (u : Fin U) (side : Side) (kind : Kind) (price qty : Nat)
    (hq : 0 < qty) (hp : kind = Kind.limit → 0 < price)
    (hbal : (st.balances u (reservationOf side kind price qty).1).available
      < (((reservationOf side kind price qty).2 : Nat) : Int)) :
    createOrder st u side kind price qty
      = (st, EngineResp.err EngineError.insufficientBalance) := by
  unfold createOrder
  split
  · simp only
    split
    · rfl
    · rename_i l₁ hres
      unfold reserve at hres
      rw [if_pos hbal] at hres
      exact absurd hres (by simp)
  · rename_i hval
    exact absurd ⟨hq, hp⟩ hval

/-- Concrete state for the C5 witness: spec §8 scenario — a user with
`available = 50` quote and nothing else. -/
def cState : EngineState 2 :=
  ⟨[], [], fun _ a => if a = Asset.quote then ⟨50, 0⟩ else ⟨0, 0⟩, 0, 0⟩

theorem claim_C5_witness :
    (0 < 10 ∧ (Kind.limit = Kind.limit → 0 < 10)
      ∧ (cState.balances 0 (reservationOf Side.buy Kind.limit 10 10).1).available
          < (((reservationOf Side.buy Kind.limit 10 10).2 : Nat) : Int))
    ∧ createOrder cState 0 Side.buy Kind.limit 10 10
        = (cState, EngineResp.err EngineError.insufficientBalance) :=
  ⟨⟨by decide, fun _ => by decide, by decide⟩,
    claim_C5_insufficient_balance cState 0 Side.buy Kind.limit 10 10
      (by decide) (fun _ => by decide) (by decide)⟩

theorem finalizeCreate_buy_bids {U : Nat} (st : EngineState U) (u : Fin U)
    {kind : Kind} (price : Nat) (asset : Asset) (amt : Nat) (r : MatchRes U)
    (hk : kind ≠ Kind.limit) :
    (finalizeCreate st u Side.buy kind price asset amt r).1.bids = st.bids := by
  unfold finalizeCreate
  split
  · rfl
  · simp only
    split
    · rename_i hrest
      exact absurd hrest.1 hk
    · split
      · rfl
      · rfl

theorem finalizeCreate_sell_asks {U : Nat} (st : EngineState U) (u : Fin U)
    {kind : Kind} (price : Nat) (asset : Asset) (amt : Nat) (r : MatchRes U)
    (hk : kind ≠ Kind.limit) :
    (finalizeCreate st u Side.sell kind price asset amt r).1.asks = st.asks := by
  unfold finalizeCreate
  split
  · rfl
  · simp only
    split
    · rename_i hrest
      exact absurd hrest.1 hk
    · split
      · rfl
      · rfl

/-- C6: A Market order never rests on the book — its own side of the
book is unchanged by `createOrder`, and any unfilled remainder is
discarded with status Cancelled; in particular a funded Market Buy
arriving at an empty ask side yields zero fills, status Cancelled, and
no new entry in `bids`. -/
theorem claim_C6_market_never_rests {U : Nat} (st : EngineState U)
    (u : Fin U) (side : Side) (price qty : Nat) :
    ((side = Side.buy →
        (createOrder st u side Kind.market price qty).1.bids = st.bids)
      ∧ (side = Side.sell →
        (createOrder st u side Kind.market price qty).1.asks = st.asks))
    ∧ (side = Side.buy → st.asks = [] → 0 < qty →
        0 ≤ (st.balances u Asset.quote).locked →
        ¬ (st.balances u Asset.quote).available
            < ((worstCaseBound * qty : Nat) : Int) →
        (createOrder st u side Kind.market price qty).2
            = EngineResp.created ⟨st.seq + 1, OrderStatus.cancelled, 0, []⟩
          ∧ (createOrder st u side Kind.market price qty).1.bids = st.bids) := by
  constructor
  · constructor
    · rintro rfl
      unfold createOrder
      split
      · simp only
        split
        · rfl
        · exact finalizeCreate_buy_bids st u _ _ _ _ (by decide)
      · rfl
    · rintro rfl
      unfold createOrder
      split
      · simp only
        split
        · rfl
        · exact finalizeCreate_sell_asks st u _ _ _ _ (by decide)
      · rfl
  · rintro rfl hasks hq hlk hav
    have hval : 0 < qty ∧ (Kind.market = Kind.limit → 0 < price) :=
      ⟨hq, by intro h; cases h⟩
    have hres : reserve st.balances u Asset.quote (worstCaseBound * qty)
        = some (updBal st.balances u Asset.quote
            (fun b => ⟨b.available - (worstCaseBound * qty : Nat),
              b.locked + (worstCaseBound * qty : Nat)⟩)) := by
      unfold reserve
      rw [if_neg hav]
    unfold createOrder
    rw [if_pos hval]
    simp only [reservationOf, hres, hasks, oppositeOf, matchLoop]
    unfold finalizeCreate
    simp only [remaining]
    rw [if_neg (by simp)]
    rw [if_neg (by simp)]
    have hrel : release (updBal st.balances u Asset.quote
        (fun b => ⟨b.available - (worstCaseBound * qty : Nat),
          b.locked + (worstCaseBound * qty : Nat)⟩)) u Asset.quote
        (worstCaseBound * qty - consumedOf Side.buy ([] : List (Fill U)))
          ≠ none := by
      unfold release updBal
      simp only [consumedOf, List.map_nil, List.sum_nil, Nat.sub_zero]
      rw [if_neg (by simp; omega)]
      simp
    split
    · rename_i hnone
      exact absurd hnone hrel
    · rename_i l₂ hsome
      constructor
      · simp only [applyBook, statusOf, remaining]
        rw [if_neg (by simpa using Nat.sub_ne_zero_of_lt hq)]
      · rfl

/-- Concrete state for the C6 witness: user 1 holds ample quote funds,
the ask side is empty. -/
def mState : EngineState 2 :=
  ⟨[], [], fun _ _ => ⟨100000000000, 0⟩, 0, 0⟩

theorem claim_C6_witness :
    (mState.asks = [] ∧ 0 < 10 ∧ 0 ≤ (mState.balances 1 Asset.quote).locked
      ∧ ¬ (mState.balances 1 Asset.quote).available
          < ((worstCaseBound * 10 : Nat) : Int))
    ∧ ((createOrder mState 1 Side.buy Kind.market 0 10).2
        = EngineResp.created ⟨mState.seq + 1, OrderStatus.cancelled, 0, []⟩
      ∧ (createOrder mState 1 Side.buy Kind.market 0 10).1.bids = mState.bids) :=
  ⟨⟨rfl, by decide, by decide, by decide⟩,
    (claim_C6_market_never_rests mState 1 Side.buy 0 10).2
      rfl rfl (by decide) (by decide) (by decide)⟩

/-- C7: Cancelling an `orderId` that is not resting in the book (absent,
already fully filled, or already cancelled and hence removed) always
returns `OrderNotFound` and leaves the entire engine state — book and
balances — unchanged. -/
theorem claim_C7_cancel_absent {U : Nat} (st : EngineState U) (oid : Nat)
    (hb : ∀ o ∈ st.bids, o.orderId ≠ oid)
    (ha : ∀ o ∈ st.asks, o.orderId ≠ oid) :
    cancelOrder st oid = (st, EngineResp.err EngineError.orderNotFound) := by
  unfold cancelOrder
  have hb' : st.bids.find? (fun o => o.orderId == oid) = none :=
    List.find?_eq_none.mpr (by intro o ho; simpa using hb o ho)
  have ha' : st.asks.find? (fun o => o.orderId == oid) = none :=
    List.find?_eq_none.mpr (by intro o ho; simpa using ha o ho)
  rw [hb', ha']

/-- Concrete state for the C7 witness: one resting bid (id 1) and one
resting ask (id 2); cancelling the absent id 77 is a no-op error. -/
def kState : EngineState 2 :=
  ⟨[⟨1, 0, Side.buy, Kind.limit, 90, 4, 0, 1⟩],
   [⟨2, 1, Side.sell, Kind.limit, 110, 6, 0, 2⟩],
   fun _ _ => ⟨1000, 360⟩, 2, 0⟩

theorem claim_C7_witness :
    ((∀ o ∈ kState.bids, o.orderId ≠ 77) ∧ (∀ o ∈ kState.asks, o.orderId ≠ 77))
    ∧ cancelOrder kState 77 = (kState, EngineResp.err EngineError.orderNotFound) :=
  ⟨⟨by decide, by decide⟩,
    claim_C7_cancel_absent kState 77 (by decide) (by decide)⟩

/-- The fills carried by an engine response (empty for errors and
non-order responses). -/
def fillsOf {U : Nat} : EngineResp U → List (Fill U)
  | .created ok => ok.fills
  | _ => []

theorem matchLoop_fills_from_book {U : Nat} (inc : Order U)
    (opp : List (Order U)) (l : Ledger U) (tid : Nat) :
    ∀ f ∈ (matchLoop inc opp l tid).fills,
      ∃ o ∈ opp, o.orderId = f.makerOrderId ∧ f.price = o.price
        ∧ marketable inc o = true := by
  induction opp generalizing inc l tid with
  | nil => intro f hf; simp [matchLoop] at hf
  | cons best rest ih =>
    intro f hf
    unfold matchLoop at hf
    split at hf
    · simp at hf
    · rename_i hrun
      simp only at hf
      split at hf
      · simp at hf
      · rename_i l₁ hsettle
        have hmk : marketable inc best = true := by
          rcases not_or.mp hrun with ⟨-, h⟩
          simpa using h
        split at hf
        · simp only [List.mem_cons] at hf
          rcases hf with rfl | hf
          · exact ⟨best, List.mem_cons_self best rest, rfl, rfl, hmk⟩
          · rcases ih _ _ _ f hf with ⟨o, ho, h₁, h₂, h₃⟩
            exact ⟨o, List.mem_cons_of_mem best ho, h₁, h₂, h₃⟩
        · simp only [List.mem_singleton] at hf
          subst hf
          exact ⟨best, List.mem_cons_self best rest, rfl, rfl, hmk⟩

theorem fillsOf_finalizeCreate {U : Nat} (st : EngineState U) (u : Fin U)
    (side : Side) (kind : Kind) (price : Nat) (asset : Asset) (amt : Nat)
    (r : MatchRes U) :
    fillsOf (finalizeCreate st u side kind price asset amt r).2 = r.fills
      ∨ fillsOf (finalizeCreate st u side kind price asset amt r).2 = [] := by
  unfold finalizeCreate
  split
  · right; rfl
  · simp only
    split
    · split
      · right; rfl
      · left; rfl
    · split
      · right; rfl
      · left; rfl

/-- C4: In every match step the execution price of the Fill equals the
resting (maker) order's price, and consequently a taker never transacts
at a price worse than its own limit: for an incoming Limit Buy every
fill price is ≤ its limit price, and for an incoming Limit Sell every
fill price is ≥ its limit price. -/
theorem claim_C4_maker_price_improvement {U : Nat} (st : EngineState U)
    (u : Fin U) (side : Side) (kind : Kind) (price qty : Nat) :
    ∀ f ∈ fillsOf (createOrder st u side kind price qty).2,
      (∃ o ∈ oppositeOf st side, o.orderId = f.makerOrderId ∧ f.price = o.price)
      ∧ (kind = Kind.limit → side = Side.buy → f.price ≤ price)
      ∧ (kind = Kind.limit → side = Side.sell → price ≤ f.price) := by
  intro f hf
  unfold createOrder at hf
  split at hf
  · simp only at hf
    split at hf
    · simp [fillsOf] at hf
    · rename_i l₁ hres
      rcases fillsOf_finalizeCreate st u side kind price _ _ _ with heq | heq
      · rw [heq] at hf
        rcases matchLoop_fills_from_book _ _ _ _ f hf with ⟨o, ho, h₁, h₂, h₃⟩
        refine ⟨⟨o, ho, h₁, h₂⟩, ?_, ?_⟩
        · rintro rfl rfl
          simp only [marketable, decide_eq_true_eq] at h₃
          omega
        · rintro rfl rfl
          simp only [marketable, decide_eq_true_eq] at h₃
          omega
      · rw [heq] at hf
        simp at hf
  · simp [fillsOf] at hf

/-- Concrete state for the C4 witness: one resting ask at price 100
(its maker's 5 base locked), so the incoming Limit Buy at 101 fills at
the maker's price 100. -/
def pState : EngineState 2 :=
  ⟨[], [⟨1, 0, Side.sell, Kind.limit, 100, 5, 0, 1⟩],
   fun u a => if u = 0 ∧ a = Asset.base then ⟨100000000, 5⟩
     else ⟨100000000, 0⟩, 1, 0⟩

/-- The single fill produced by the C4 witness run. -/
def pFill : Fill 2 := ⟨1, 100, 5, 1, 2, 0, 1⟩

theorem claim_C4_witness :
    pFill ∈ fillsOf (createOrder pState 1 Side.buy Kind.limit 101 8).2
    ∧ ((∃ o ∈ oppositeOf pState Side.buy,
          o.orderId = pFill.makerOrderId ∧ pFill.price = o.price)
      ∧ (Kind.limit = Kind.limit → Side.buy = Side.buy → pFill.price ≤ 101)
      ∧ (Kind.limit = Kind.limit → Side.buy = Side.sell → 101 ≤ pFill.price)) :=
  ⟨by decide,
    claim_C4_maker_price_improvement pState 1 Side.buy Kind.limit 101 8 pFill
      (by decide)⟩

/-- The tie-break discipline of the book's sort invariant that matters
for FIFO: among resting orders at the same price, list order follows
strictly increasing `createdAt` (spec §3 Order Book, §4.3 tie-break). -/
def fifoOrdered {U : Nat} (l : List (Order U)) : Prop :=
  l.Pairwise (fun a b => a.price = b.price → a.createdAt < b.createdAt)

instance {U : Nat} (l : List (Order U)) : Decidable (fifoOrdered l) := by
  unfold fifoOrdered; infer_instance

theorem pair_sublist_of_mem {α : Type} {a b : α} {l : List α}
    (ha : a ∈ l) (hb : b ∈ l) (hne : a ≠ b) :
    List.Sublist [a, b] l ∨ List.Sublist [b, a] l := by
  induction l with
  | nil => simp at ha
  | cons x t ih =>
    rcases List.mem_cons.mp ha with rfl | ha'
    · have hb' : b ∈ t := by
        rcases List.mem_cons.mp hb with rfl | h
        · exact absurd rfl hne
        · exact h
      exact Or.inl (List.Sublist.cons₂ a (List.singleton_sublist.mpr hb'))
    · rcases List.mem_cons.mp hb with rfl | hb'
      · exact Or.inr (List.Sublist.cons₂ b (List.singleton_sublist.mpr ha'))
      · exact (ih ha' hb').imp (List.Sublist.cons x) (List.Sublist.cons x)

theorem maker_id_ne_of_nodup {U : Nat} {best : Order U} {rest : List (Order U)}
    (hnd : (((best :: rest).map (fun o => o.orderId))).Nodup)
    {o2 : Order U} (h : o2 ∈ rest) : best.orderId ≠ o2.orderId := by
  simp only [List.map_cons, List.nodup_cons] at hnd
  intro he
  exact hnd.1 (he ▸ List.mem_map_of_mem (fun o => o.orderId) h)

theorem matchLoop_fifo {U : Nat} (inc : Order U) (opp : List (Order U))
    (l : Ledger U) (tid : Nat) (o1 o2 : Order U)
    (hsub : List.Sublist [o1, o2] opp)
    (hnd : (opp.map (fun o => o.orderId)).Nodup) :
    ∀ f2 ∈ (matchLoop inc opp l tid).fills, f2.makerOrderId = o2.orderId →
      ∃ f1, f1.makerOrderId = o1.orderId ∧ f1.quantity = remaining o1
        ∧ List.Sublist [f1, f2] (matchLoop inc opp l tid).fills := by
  revert hsub hnd
  induction opp generalizing inc l tid with
  | nil =>
    intro hsub hnd
    simp at hsub
  | cons best rest ih =>
    intro hsub hnd f2 hf2 hmk2
    revert hf2
    unfold matchLoop
    split
    · intro hf2; simp at hf2
    · simp only
      split
      · intro hf2; simp at hf2
      · rename_i l₁ hset
        split
        · rename_i hbz
          intro hf2
          simp only [List.mem_cons] at hf2
          cases hsub with
          | cons₂ _ h2 =>
            have ho2 : o2 ∈ rest := List.singleton_sublist.mp h2
            rcases hf2 with rfl | hf2
            · exact absurd (hmk2 ▸ rfl) (maker_id_ne_of_nodup hnd ho2)
            · refine ⟨_, rfl, ?_,
                List.Sublist.cons₂ _ (List.singleton_sublist.mpr hf2)⟩
              simp only [remaining] at hbz ⊢
              omega
          | cons _ h2 =>
            have ho2 : o2 ∈ rest := h2.subset (by simp)
            rcases hf2 with rfl | hf2
            · exact absurd (hmk2 ▸ rfl) (maker_id_ne_of_nodup hnd ho2)
            · rcases ih _ _ _ h2 ((List.nodup_cons.mp hnd).2) f2 hf2 hmk2
                with ⟨f1, hq1, hr1, hs1⟩
              exact ⟨f1, hq1, hr1, hs1.cons _⟩
        · rename_i hbz
          intro hf2
          simp only [List.mem_singleton] at hf2
          subst hf2
          exfalso
          have ho2 : o2 ∈ rest := by
            cases hsub with
            | cons₂ _ h2 => exact List.singleton_sublist.mp h2
            | cons _ h2 => exact h2.subset (by simp)
          exact absurd (hmk2 ▸ rfl) (maker_id_ne_of_nodup hnd ho2)

theorem fillsOf_createOrder {U : Nat} (st : EngineState U) (u : Fin U)
    (side : Side) (kind : Kind) (price qty : Nat) :
    (∃ l₁, reserve st.balances u (reservationOf side kind price qty).1
        (reservationOf side kind price qty).2 = some l₁ ∧
      fillsOf (createOrder st u side kind price qty).2
        = (matchLoop ⟨st.seq + 1, u, side, kind, price, qty, 0, st.seq + 1⟩
            (oppositeOf st side) l₁ (st.lastTradeId + 1)).fills)
    ∨ fillsOf (createOrder st u side kind price qty).2 = [] := by
  unfold createOrder
  split
  · simp only
    split
    · right; rfl
    · rename_i l₁ hres
      rcases fillsOf_finalizeCreate st u side kind price
          (reservationOf side kind price qty).1
          (reservationOf side kind price qty).2
          (matchLoop ⟨st.seq + 1, u, side, kind, price, qty, 0, st.seq + 1⟩
            (oppositeOf st side) l₁ (st.lastTradeId + 1)) with heq | heq
      · exact Or.inl ⟨l₁, hres, heq⟩
      · exact Or.inr heq
  · right; rfl

/-- C3: For any two resting orders on the same side of the book at the
identical price, the one with the lower `createdAt` sequence number is
always matched first against any marketable incoming opposite order
(strict FIFO within a price level): whenever the younger order receives
a fill, the older one has already received a fill for its entire
remaining quantity, earlier in the fill sequence. -/
theorem claim_C3_price_time_priority {U : Nat} (st : EngineState U)
    (u : Fin U) (side : Side) (kind : Kind) (price qty : Nat)
    (o1 o2 : Order U)
    (hsorted : fifoOrdered (oppositeOf st side))
    (hnd : ((oppositeOf st side).map (fun o => o.orderId)).Nodup)
    (h1 : o1 ∈ oppositeOf st side) (h2 : o2 ∈ oppositeOf st side)
    (hp : o1.price = o2.price) (hc : o1.createdAt < o2.createdAt) :
    ∀ f2 ∈ fillsOf (createOrder st u side kind price qty).2,
      f2.makerOrderId = o2.orderId →
      ∃ f1, f1.makerOrderId = o1.orderId ∧ f1.quantity = remaining o1
        ∧ List.Sublist [f1, f2]
            (fillsOf (createOrder st u side kind price qty).2) := by
  have hne : o1 ≠ o2 := by
    intro h
    rw [h] at hc
    omega
  have hsub : List.Sublist [o1, o2] (oppositeOf st side) := by
    rcases pair_sublist_of_mem h1 h2 hne with h | h
    · exact h
    · exfalso
      have hpw := hsorted.sublist h
      have := (List.pairwise_cons.mp hpw).1 o1 (by simp)
      omega
  rcases fillsOf_createOrder st u side kind price qty with ⟨l₁, hres, heq⟩ | heq
  · rw [heq]
    exact matchLoop_fifo _ _ _ _ o1 o2 hsub hnd
  · rw [heq]
    intro f2 hf2
    simp at hf2

/-- Concrete state for the C3 witness: two same-price asks, the older
with id 1 (`createdAt = 1`), the younger with id 2 (`createdAt = 2`);
their maker has 10 base locked.  The incoming Buy Limit 100 for 7 fully
fills order 1 and then partially fills order 2. -/
def fState : EngineState 2 :=
  ⟨[], [⟨1, 0, Side.sell, Kind.limit, 100, 5, 0, 1⟩,
        ⟨2, 0, Side.sell, Kind.limit, 100, 5, 0, 2⟩],
   fun u a => if u = 0 ∧ a = Asset.base then ⟨100000000, 10⟩
     else ⟨100000000, 0⟩, 2, 0⟩

/-- The fill received by the younger order in the C3 witness run. -/
def fYoung : Fill 2 := ⟨2, 100, 2, 2, 3, 0, 1⟩

theorem claim_C3_witness :
    (fifoOrdered (oppositeOf fState Side.buy)
      ∧ ((oppositeOf fState Side.buy).map (fun o => o.orderId)).Nodup
      ∧ fYoung ∈ fillsOf (createOrder fState 1 Side.buy Kind.limit 100 7).2
      ∧ fYoung.makerOrderId = 2)
    ∧ ∃ f1, f1.makerOrderId = 1 ∧ f1.quantity = 5
        ∧ List.Sublist [f1, fYoung]
            (fillsOf (createOrder fState 1 Side.buy Kind.limit 100 7).2) :=
  ⟨⟨by decide, by decide, by decide, by decide⟩,
    claim_C3_price_time_priority fState 1 Side.buy Kind.limit 100 7
      ⟨1, 0, Side.sell, Kind.limit, 100, 5, 0, 1⟩
      ⟨2, 0, Side.sell, Kind.limit, 100, 5, 0, 2⟩
      (by decide) (by decide) (by decide) (by decide) (by decide) (by decide)
      fYoung (by decide) (by decide)⟩

/-- Point-in-time engine snapshot: all resting orders of both sides
(price, quantity, filled/remaining and `createdAt` travel inside
`Order`), every balance record, the last-applied sequence number and the
last trade id — mirrors `EngineSnapshot`/`OrderbookSnapshot` in
`src/unnamed/part_004` (lines 707-723), specialised to the single
market; balances are stored as per-user entries as in
`balances: Array<[string, UserBalance]>`. -/
structure EngineSnapshot (U : Nat) where
  bids : List (Order U)
  asks : List (Order U)
  balances : List (Bal × Bal)
  seq : Nat
  lastTradeId : Nat

/-- Serializes the ledger into per-user `(base, quote)` balance
entries, in user order. -/
def serializeLedger {U : Nat} (l : Ledger U) : List (Bal × Bal) :=
  List.ofFn (fun u : Fin U => (l u Asset.base, l u Asset.quote))

/-- Rebuilds a ledger from serialized balance entries (a missing entry
reads as a zero balance). -/
def restoreLedger {U : Nat} (xs : List (Bal × Bal)) : Ledger U :=
  fun u a =>
    match xs[u.val]? with
    | some e =>
      match a with
      | .base => e.1
      | .quote => e.2
    | none => ⟨0, 0⟩

/-- Modelled from the spec: §4.5 — serializes every order book side and
every balance record, tagged with the last-applied sequence number. -/
def snapshot {U : Nat} (st : EngineState U) : EngineSnapshot U :=
  ⟨st.bids, st.asks, serializeLedger st.balances, st.seq, st.lastTradeId⟩

/-- Modelled from the spec: §4.5 — on startup the engine restores its
state from the snapshot before accepting new requests. -/
def restore {U : Nat} (snap : EngineSnapshot U) : EngineState U :=
  ⟨snap.bids, snap.asks, restoreLedger snap.balances, snap.seq, snap.lastTradeId⟩

theorem restoreLedger_serializeLedger {U : Nat} (l : Ledger U) :
    restoreLedger (serializeLedger l) = l := by
  funext u a
  unfold restoreLedger serializeLedger
  have hget : (List.ofFn fun v : Fin U => (l v Asset.base, l v Asset.quote))[u.val]?
      = some (l u Asset.base, l u Asset.quote) := by
    rw [List.getElem?_ofFn]
    simp [List.ofFnNthVal, u.isLt]
  rw [hget]
  cases a <;> rfl

/-- C8: Snapshot round-trip — serializing the full engine state (both
book sides with price, quantity, remaining and `createdAt`, all
balances, the sequence counters), discarding the live engine, and
restoring from the snapshot yields exactly the pre-snapshot state, so
every subsequent input sequence produces identical behaviour: the same
responses, the same fills, and the same resulting state. -/
theorem claim_C8_snapshot_roundtrip {U : Nat} (st : EngineState U) :
    restore (snapshot st) = st
    ∧ ∀ ops : List (EngineOp U),
        runTrace (restore (snapshot st)) ops = runTrace st ops := by
  have h : restore (snapshot st) = st := by
    unfold restore snapshot
    cases st with
    | mk bids asks balances sq tid =>
      simp only
      rw [restoreLedger_serializeLedger]
  exact ⟨h, fun ops => by rw [h]⟩

end Qntx

namespace ManagerTS

/-!
Embedding of the WebSocket subscription manager singleton of
`src/exchange/apps/websocket/Manager.ts` (the same `getInstance` body
appears in `src/unnamed/part_010`, lines 122-127).  Socket handles are
opaque and omitted; the class's instance fields `user`/`subs` are kept
so that "constructs the singleton" is observable. -/

/-- One constructed `User` manager object (`new User()` sets
`user = []`, `subs = {}`); `subs` maps a market to subscriber ids. -/
structure UserObj where
  user : List String
  subs : List (String × List String)
deriving DecidableEq, Repr

/-- `new User()`. -/
def UserObj.make : UserObj := ⟨[], []⟩

/-- The class's static state: the `private static instance: User;`
field, uninitialized (`undefined`, i.e. `none`) until assigned.  (The
unused `static socket` field, always `null`, is omitted.) -/
structure UserStatics where
  inst : Option UserObj
deriving DecidableEq, Repr

/-- Static state at module load: `instance` is uninitialized. -/
def startStatics : UserStatics := ⟨none⟩

/-- JavaScript truthiness of the `this.getInstance` reference tested by
the guard `if(!this.getInstance)`: it names the method itself, and a
function object is always truthy. -/
def getInstanceRefTruthy : Bool := true

/-- Embedded from `src/exchange/apps/websocket/Manager.ts`, lines
22-27: `static getInstance()` — guard `if(!this.getInstance)` assigns
`this.instance = new User()`, then `return this.instance`. -/
def getInstance (s : UserStatics) : UserStatics × Option UserObj :=
  let s₁ := if !getInstanceRefTruthy then { s with inst := some UserObj.make }
    else s
  (s₁, s₁.inst)

end ManagerTS

/-- C9: For every call, the static `User.getInstance` of the WebSocket
subscription manager returns `undefined` and never constructs the
singleton: the guard tests the truthiness of the `getInstance` method
reference itself, which is always truthy, so `this.instance` is never
assigned — the statics are unchanged by every call, and any number of
calls starting from the uninitialized statics returns `undefined`
(`none`). -/
theorem claim_C9_getInstance_undefined :
    (∀ s : ManagerTS.UserStatics, ManagerTS.getInstance s = (s, s.inst))
    ∧ ∀ n : Nat,
        (ManagerTS.getInstance
          ((fun s => (ManagerTS.getInstance s).1)^[n] ManagerTS.startStatics)).2
          = none := by
  have hid : ∀ s : ManagerTS.UserStatics, ManagerTS.getInstance s = (s, s.inst) := by
    intro s
    unfold ManagerTS.getInstance ManagerTS.getInstanceRefTruthy
    simp
  refine ⟨hid, ?_⟩
  have hstep : (fun s => (ManagerTS.getInstance s).1) = id := by
    funext s
    rw [hid s]
    rfl
  intro n
  rw [hstep, Function.iterate_id, id]
  rw [hid]
  rfl

namespace WsApp

/-!
Embedding of the WebSocket application: manager
(`src/unnamed/part_010`, lines 1-101, the `export class User` imported
by the server) and the per-connection message handler of the server
(`src/unnamed/part_011`, lines 25-42).  Socket handles are opaque and
omitted; subscriber entries in `subs` are represented by the user's id;
`subs` is a total map from market to subscriber list (a missing key
reads as the empty list, matching the `if(!this.subs[market])`
initialization). -/

/-- One connected user: random `id` plus the `market` array of
subscribed symbols. -/
structure WsUser where
  id : String
  markets : List String
deriving DecidableEq, Repr

/-- The manager's instance state: `users` and `subs`. -/
structure WsState where
  users : List WsUser
  subs : String → List String

/-- Applies `f` to the first element satisfying `p` (JavaScript's
`find` returns a reference to the first match, which is then mutated in
place). -/
def updateFirst {α : Type} (p : α → Bool) (f : α → α) : List α → List α
  | [] => []
  | x :: xs => if p x then f x :: xs else x :: updateFirst p f xs

/-- Embedded from `src/unnamed/part_010`, lines 39-62:
`subscribe(userId, market)` — no-op when the user is unknown; otherwise
pushes `market` onto the user's `market` array unless already present,
and pushes the user onto `subs[market]` unless an entry with that id
already exists. -/
def subscribe (st : WsState) (userId market : String) : WsState :=
  match st.users.find? (fun u => u.id == userId) with
  | none => st
  | some _ =>
    let users₁ := updateFirst (fun u => u.id == userId)
      (fun u => if market ∈ u.markets then u
        else { u with markets := u.markets ++ [market] })
      st.users
    let cur := st.subs market
    let subs₁ := if cur.contains userId then st.subs
      else fun m => if m == market then cur ++ [userId] else st.subs m
    ⟨users₁, subs₁⟩

/-- A call the message handler makes on the manager. -/
inductive ManagerCall where
  | subscribeCall (userId market : String)
  | unsubscribeCall (userId market : String)
deriving DecidableEq, Repr

/-- A parsed client message: `msg.type` and the `msg.market` array the
handler iterates over. -/
structure ClientMsg where
  type : String
  market : List String
deriving DecidableEq, Repr

/-- JavaScript truthiness of a string: non-empty. -/
def jsStrTruthy (s : String) : Bool := s != ""

/-- Embedded from `src/unnamed/part_011`, lines 25-42: the
per-connection `message` handler.  Both conditionals use `=`
(assignment) rather than `==`: each assigns a non-empty string literal
to `msg.type` and tests that value's truthiness, so both branches run
for every message — and the `UNSUBSCRIBE` branch's body also calls
`userManager.subscribe`.  The returned list is the exact trace of
manager calls the handler performs, in order. -/
def handleMessage (st : WsState) (userId : String) (msg : ClientMsg) :
    WsState × List ManagerCall :=
  let msg₁ : ClientMsg := { msg with type := "SUBSCRIBE" }
  let p₁ := if jsStrTruthy msg₁.type then
      (msg₁.market.foldl (fun s m => subscribe s userId m) st,
        msg₁.market.map (fun m => ManagerCall.subscribeCall userId m))
    else (st, [])
  let msg₂ : ClientMsg := { msg₁ with type := "UNSUBSCRIBE" }
  let p₂ := if jsStrTruthy msg₂.type then
      (msg₂.market.foldl (fun s m => subscribe s userId m) p₁.1,
        msg₂.market.map (fun m => ManagerCall.subscribeCall userId m))
    else (p₁.1, [])
  (p₂.1, p₁.2 ++ p₂.2)

theorem count_subscribe_le (st : WsState) (uid mkt : String)
    (h : ∀ u m, ((st.subs m).count u) ≤ 1) :
    ∀ u m, (((subscribe st uid mkt).subs m).count u) ≤ 1 := by
  intro u m
  unfold subscribe
  split
  · exact h u m
  · dsimp only
    split
    · exact h u m
    · rename_i hnc
      by_cases hm : m = mkt
      · subst hm
        simp only [beq_self_eq_true, if_true, List.count_append]
        by_cases hu : u = uid
        · subst hu
          have hmem : u ∉ st.subs m := by simpa using hnc
          have hz : (st.subs m).count u = 0 := List.count_eq_zero.mpr hmem
          have hz2 : List.count u [u] = 1 := by simp
          omega
        · have hz : List.count u [uid] = 0 :=
            List.count_eq_zero.mpr (by simp [hu])
          have hle := h u m
          omega
      · have hm' : (m == mkt) = false := by simpa using hm
        simp only [hm', if_false]
        exact h u m

theorem count_foldl_subscribe (ms : List String) (st : WsState) (uid : String)
    (h : ∀ u m, ((st.subs m).count u) ≤ 1) :
    ∀ u m, (((ms.foldl (fun s mk => subscribe s uid mk) st).subs m).count u) ≤ 1 := by
  induction ms generalizing st with
  | nil => exact h
  | cons x xs ih => exact ih _ (count_subscribe_le st uid x h)

/-- C10: In the WebSocket server's per-connection message handler, both
conditionals assign rather than compare (`msg.type = 'SUBSCRIBE'`,
`msg.type = 'UNSUBSCRIBE'`), so for every parsed client message,
regardless of its type, both branches execute and every listed market is
passed to `userManager.subscribe` twice; an UNSUBSCRIBE request never
removes a subscription (the handler's call trace contains no unsubscribe
call).  The double subscribe leaves each market's subscriber list with
at most one entry per user because `subscribe` itself is idempotent. -/
theorem claim_C10_handler_double_subscribe (st : WsState) (uid : String)
    (msg : ClientMsg) (h : ∀ u m, ((st.subs m).count u) ≤ 1) :
    (handleMessage st uid msg).2
      = msg.market.map (fun m => ManagerCall.subscribeCall uid m)
        ++ msg.market.map (fun m => ManagerCall.subscribeCall uid m)
    ∧ (∀ u m, ManagerCall.unsubscribeCall u m ∉ (handleMessage st uid msg).2)
    ∧ (handleMessage st uid msg).1
        = msg.market.foldl (fun s mk => subscribe s uid mk)
            (msg.market.foldl (fun s mk => subscribe s uid mk) st)
    ∧ ∀ u m, ((((handleMessage st uid msg).1).subs m).count u) ≤ 1 := by
  refine ⟨rfl, ?_, rfl, ?_⟩
  · intro u m hmem
    have h2 : (handleMessage st uid msg).2
        = msg.market.map (fun mk => ManagerCall.subscribeCall uid mk)
          ++ msg.market.map (fun mk => ManagerCall.subscribeCall uid mk) := rfl
    rw [h2] at hmem
    simp only [List.mem_append, List.mem_map] at hmem
    rcases hmem with ⟨x, _, hx⟩ | ⟨x, _, hx⟩ <;> simp at hx
  · have hst : (handleMessage st uid msg).1
        = msg.market.foldl (fun s mk => subscribe s uid mk)
            (msg.market.foldl (fun s mk => subscribe s uid mk) st) := rfl
    rw [hst]
    exact count_foldl_subscribe _ _ _ (count_foldl_subscribe _ _ _ h)

/-- Concrete state for the C10 witness: one connected user `"alice"`
with no subscriptions; the incoming message is an UNSUBSCRIBE request
for two markets. -/
def wsSt : WsState := ⟨[⟨"alice", []⟩], fun _ => []⟩

/-- The C10 witness message. -/
def wsMsg : ClientMsg := ⟨"UNSUBSCRIBE", ["BTC", "ETH"]⟩

theorem claim_C10_witness :
    (∀ u m, ((wsSt.subs m).count u) ≤ 1)
    ∧ ((handleMessage wsSt "alice" wsMsg).2
        = wsMsg.market.map (fun m => ManagerCall.subscribeCall "alice" m)
          ++ wsMsg.market.map (fun m => ManagerCall.subscribeCall "alice" m)
      ∧ (∀ u m, ManagerCall.unsubscribeCall u m ∉ (handleMessage wsSt "alice" wsMsg).2)
      ∧ (handleMessage wsSt "alice" wsMsg).1
          = wsMsg.market.foldl (fun s mk => subscribe s "alice" mk)
              (wsMsg.market.foldl (fun s mk => subscribe s "alice" mk) wsSt)
      ∧ ∀ u m, ((((handleMessage wsSt "alice" wsMsg).1).subs m).count u) ≤ 1) :=
  ⟨fun u m => by simp [wsSt],
    claim_C10_handler_double_subscribe wsSt "alice" wsMsg
      (fun u m => by simp [wsSt])⟩

end WsApp
